import Mathlib

/-!
Verification of the inventory-store core of the Social-Media-Sync pipeline.

The Python source keeps a flat Parquet table of video records
(`scripts/common.py`), guarded by an on-disk `FileLock`, and three
collaborators (`ingestor.py`, `editor.py`, `publicador.py`) drive a status
state machine over it.  We embed the store shallowly:

* a row of the table is a `Row`; the persisted file is an
  `Option (List Row)` (`none` = the parquet file does not exist);
* timestamps are `Nat` (microseconds since epoch, UTC); the current clock
  value is passed explicitly where the Python calls `datetime.now`;
* the on-disk filesystem consulted by the publisher is a predicate
  `String → Bool` over `path_local` values;
* lock discipline is made observable through an `Event` trace emitted by
  each operation (`acquire`/`release` of the FileLock, `writeInventory`
  for each `write_parquet` of the inventory file);
* a raised-and-propagated exception is `Except.error ()` in the
  error-aware variants; an exception swallowed by a handler that returns
  a normal value shows up as `Except.ok`.
-/

/-- Value carried by one cell of an update mapping (`updates: Dict`). -/
inductive FieldVal where
  | str (s : String)
  | int (n : Int)
  | time (t : Nat)
deriving Repr, DecidableEq

/-- One row of the inventory table (schema `INVENTORY_COLUMNS` in
`common.py`). -/
structure Row where
  video_id : String
  source_url : String
  title : String
  duration : Int
  path_local : String
  status_fb : String
  created_at : Nat
  updated_at : Nat
deriving Repr, DecidableEq

/-- Column names of the fixed inventory schema, in order
(`INVENTORY_COLUMNS` in `common.py`). -/
def INVENTORY_COLUMNS : List String :=
  ["video_id", "source_url", "title", "duration",
   "path_local", "status_fb", "created_at", "updated_at"]

/-- Observable events of one store operation: lock acquisition/release of
the `FileLock`, and each `write_parquet` of the inventory file. -/
inductive Event where
  | acquire
  | release
  | writeInventory
deriving Repr, DecidableEq

/-- A trace is lock-disciplined when every `writeInventory` happens at
positive lock depth.  `d` is the current depth of held acquisitions. -/
def writesLocked : List Event → Nat → Bool
  | [], _ => true
  | Event.acquire :: es, d => writesLocked es (d + 1)
  | Event.release :: es, d => writesLocked es (d - 1)
  | Event.writeInventory :: es, d => decide (0 < d) && writesLocked es d

/-- Character-list matching: `charsMatch p l` holds when `p` is an initial
segment of `l`.  Used to embed Python's `in` on strings. -/
def charsMatch : List Char → List Char → Bool
  | [], _ => true
  | _ :: _, [] => false
  | p :: ps, c :: cs => p == c && charsMatch ps cs

/-- Auxiliary scan for substring containment. -/
def containsAux (p : List Char) : List Char → Bool
  | [] => p.isEmpty
  | c :: cs => charsMatch p (c :: cs) || containsAux p cs

/-- Python's `pat in s` on strings: `pat` occurs contiguously in `s`. -/
def strContains (s pat : String) : Bool :=
  containsAux pat.data s.data

/-- Find the row with the given `video_id` (first match in table order). -/
def findRow (tbl : List Row) (k : String) : Option Row :=
  tbl.find? (fun r => r.video_id == k)

/-- The table has at most one row per `video_id`. -/
def keysNodup (tbl : List Row) : Prop :=
  (tbl.map (fun r => r.video_id)).Nodup

instance (tbl : List Row) : Decidable (keysNodup tbl) := by
  unfold keysNodup; infer_instance

/-! ## `common.py`: the inventory store -/

/-- `ensure_inventory`: under the lock, create an empty table if the file
is missing.  Returns the table now on disk together with the event trace;
the persisted state afterwards is `some` of the returned table. -/
def ensure_inventory (s : Option (List Row)) : List Row × List Event :=
  match s with
  | some tbl => (tbl, [Event.acquire, Event.release])
  | none => ([], [Event.acquire, Event.writeInventory, Event.release])

/-- `read_inventory`: return all rows; if the file is missing, lazily
create an empty one — note: this write happens WITHOUT taking the lock in
the source.  Result: (rows read, new persisted state, events). -/
def read_inventory (s : Option (List Row)) :
    List Row × Option (List Row) × List Event :=
  match s with
  | none => ([], some [], [Event.writeInventory])
  | some tbl => (tbl, some tbl, [])

/-- `combined.unique(subset=["video_id"], keep="first")`: keep, for each
`video_id`, the first occurrence; `seen` are keys already kept. -/
def keepFirstByKey (seen : List String) : List Row → List Row
  | [] => []
  | r :: rs =>
      if seen.contains r.video_id then keepFirstByKey seen rs
      else r :: keepFirstByKey (r.video_id :: seen) rs

/-- `_append_to_inventory(rows)`: ensure the file, then (unless `rows` is
empty) under the lock concatenate and deduplicate by `video_id` keeping
the first occurrence, and write back.  Returns the resulting persisted
table and the event trace. -/
def append_to_inventory (s : Option (List Row)) (rows : List Row) :
    List Row × List Event :=
  let e := ensure_inventory s
  if rows.isEmpty then e
  else (keepFirstByKey [] (e.1 ++ rows),
        e.2 ++ [Event.acquire, Event.writeInventory, Event.release])

/-- Write a single named column of a row, as `pl.lit(v)` does when the
column's dtype matches the literal; a value of the wrong dtype for the
column leaves the row unchanged (no claim exercises that branch). -/
def setField (r : Row) (k : String) (v : FieldVal) : Row :=
  match k, v with
  | "video_id", FieldVal.str s => { r with video_id := s }
  | "source_url", FieldVal.str s => { r with source_url := s }
  | "title", FieldVal.str s => { r with title := s }
  | "duration", FieldVal.int n => { r with duration := n }
  | "path_local", FieldVal.str s => { r with path_local := s }
  | "status_fb", FieldVal.str s => { r with status_fb := s }
  | "created_at", FieldVal.time t => { r with created_at := t }
  | "updated_at", FieldVal.time t => { r with updated_at := t }
  | _, _ => r

/-- The per-row effect of `update_inventory_by_video_id`'s single
`with_columns` pass, on a mapping whose built expressions carry distinct
output names (the full call's `DuplicateError` raise on colliding names
— notably a supplied `"updated_at"` key — is modeled by
`update_by_video_idRun` below): each `pl.when(video_id == vid)` guard
tests the row's original `video_id`; keys not in `df.columns` build no
expression; the automatic `updated_at` expression is then the sole
writer of that column. -/
def applyUpdates (vid : String) (ups : List (String × FieldVal))
    (now : Nat) (r : Row) : Row :=
  if r.video_id == vid then
    setField
      (ups.foldl
        (fun acc kv =>
          if INVENTORY_COLUMNS.contains kv.1 then setField acc kv.1 kv.2
          else acc)
        r)
      "updated_at" (FieldVal.time now)
  else r

/-- `update_inventory_by_video_id(video_id, updates)`: under the lock,
read the table; if no row matches, return `false` leaving the file as it
was; otherwise apply the updates plus the automatic `updated_at := now`
in one pass, write back, and return `true`.  The table argument is the
file's current content (the Python `read_parquet` presupposes the file
exists).  Result: (returned bool, persisted table, events).  This is the
branch structure and effect of the call; the exception the single
`with_columns` raises when its expressions' output names collide is
carried by `update_by_video_idRun` below, which wraps this function. -/
def update_inventory_by_video_id (tbl : List Row) (vid : String)
    (ups : List (String × FieldVal)) (now : Nat) :
    Bool × List Row × List Event :=
  if tbl.any (fun r => r.video_id == vid) then
    (true, tbl.map (applyUpdates vid ups now),
     [Event.acquire, Event.writeInventory, Event.release])
  else
    (false, tbl, [Event.acquire, Event.release])

/-- All strings in the list are pairwise distinct. -/
def distinctStrings : List String → Bool
  | [] => true
  | x :: xs => !(xs.contains x) && distinctStrings xs

/-- Output names of the expressions one `update_inventory_by_video_id`
call builds on a present key: one per update key that is a real column
(`if k in df.columns`), each aliased to that key, plus the automatic
`"updated_at"` expression appended last. -/
def exprAliases (ups : List (String × FieldVal)) : List String :=
  (ups.filter (fun kv => INVENTORY_COLUMNS.contains kv.1)).map
    (fun kv => kv.1) ++ ["updated_at"]

/-- The full exception behavior of one `update_inventory_by_video_id`
call.  On a missing key the Python returns `False` before building any
expression, so no error can arise there.  On a present key the single
`df.with_columns(exprs)` call raises `DuplicateError` whenever two
expressions share an output name — in particular whenever the mapping
itself carries the `"updated_at"` column, colliding with the automatic
expression — and the handler re-raises it; nothing is written on that
path.  Otherwise the call succeeds with the effect modeled by
`update_inventory_by_video_id`. -/
def update_by_video_idRun (tbl : List Row) (vid : String)
    (ups : List (String × FieldVal)) (now : Nat) :
    Except Unit (Bool × List Row × List Event) :=
  if tbl.any (fun r => r.video_id == vid) then
    if distinctStrings (exprAliases ups) then
      Except.ok (update_inventory_by_video_id tbl vid ups now)
    else Except.error ()
  else Except.ok (update_inventory_by_video_id tbl vid ups now)

/-! ## `publicador.py`: the publishing CLI -/

/-- The scanning loop of `cli_get_next`: walk the rows in table order,
skipping rows whose `status_fb` is not `"pending"` or whose `path_local`
does not contain `"processed"`; stop at the first candidate whose file
exists, collecting the `video_id`s of candidates whose file is missing.
Returns (found path, video_ids to mark failed). -/
def scanRows (fsExists : String → Bool) : List Row → Option String × List String
  | [] => (none, [])
  | r :: rs =>
      if r.status_fb == "pending" then
        if strContains r.path_local "processed" then
          if fsExists r.path_local then (some r.path_local, [])
          else
            let p := scanRows fsExists rs
            (p.1, r.video_id :: p.2)
        else scanRows fsExists rs
      else scanRows fsExists rs

/-- The batched `is_in(to_mark_failed)` update of `cli_get_next`: every
row whose `video_id` is in `ids` gets `status_fb := "failed"` and
`updated_at := now`. -/
def markFailed (ids : List String) (now : Nat) (tbl : List Row) : List Row :=
  tbl.map (fun r =>
    if ids.contains r.video_id then
      { r with status_fb := "failed", updated_at := now }
    else r)

/-- `cli_get_next()`: under the lock, return `none` if the inventory file
does not exist (without creating it); otherwise scan for the next
pending+processed row whose file exists, writing the batched `failed`
transitions back (only when there are any) before returning.  Result:
(returned path, persisted state, events).  (The Python `if found_path:`
truthiness test coincides with a `None` test: a found path contains
`"processed"`, hence is never the empty string.) -/
def cli_get_next (fsExists : String → Bool) (now : Nat)
    (s : Option (List Row)) :
    Option String × Option (List Row) × List Event :=
  match s with
  | none => (none, none, [Event.acquire, Event.release])
  | some tbl =>
      let p := scanRows fsExists tbl
      if p.2.isEmpty then (p.1, some tbl, [Event.acquire, Event.release])
      else (p.1, some (markFailed p.2 now tbl),
            [Event.acquire, Event.writeInventory, Event.release])

/-! ## `ingestor.py`: failure-status update -/

/-- `_update_inventory_status(video_id, status)`: reads via the lazy
reader (`_read_inventory_lazy`, which runs `ensure_inventory` under the
lock and returns a `pl.scan_parquet` LazyFrame), builds a lazy
`with_columns` plan, then calls `lf.write_parquet(...)` — a method
`LazyFrame` does not have.  The call therefore raises `AttributeError`
(re-raised wrapped as `InventoryUpdateError`) before anything is
collected or written: this function never writes the inventory file, and
its event trace is exactly `ensure`'s.  Result: (raised error, events). -/
def update_inventory_status (_vid _status : String) (s : Option (List Row)) :
    Except Unit Unit × List Event :=
  (Except.error (), (ensure_inventory s).2)

/-! ## Error propagation variants

`ioFail = true` models a storage I/O or lock-acquisition error raised by
the underlying parquet/FileLock machinery inside the operation's `try`
block.  The store helpers re-raise (`except Exception: ... raise`);
`cli_get_next` catches every exception and returns `None`
(`except Exception: ... return None`). -/

/-- Error-aware `ensure_inventory`: re-raises. -/
def ensure_inventoryExc (ioFail : Bool) (s : Option (List Row)) :
    Except Unit (List Row × List Event) :=
  if ioFail then Except.error () else Except.ok (ensure_inventory s)

/-- Error-aware `_append_to_inventory`: re-raises. -/
def append_to_inventoryExc (ioFail : Bool) (s : Option (List Row))
    (rows : List Row) : Except Unit (List Row × List Event) :=
  if ioFail then Except.error () else Except.ok (append_to_inventory s rows)

/-- Error-aware `update_inventory_by_video_id`: re-raises injected I/O
and lock errors; with no injected failure it is the full call, including
its own `DuplicateError` path. -/
def update_by_video_idExc (ioFail : Bool) (tbl : List Row) (vid : String)
    (ups : List (String × FieldVal)) (now : Nat) :
    Except Unit (Bool × List Row × List Event) :=
  if ioFail then Except.error ()
  else update_by_video_idRun tbl vid ups now

/-- Error-aware `cli_get_next`: its `except Exception` handler logs and
`return None` — the error is converted into an empty result, never
re-raised. -/
def cli_get_nextExc (ioFail : Bool) (fsExists : String → Bool) (now : Nat)
    (s : Option (List Row)) : Except Unit (Option String) × Option (List Row) :=
  if ioFail then (Except.ok none, s)
  else (Except.ok (cli_get_next fsExists now s).1,
        (cli_get_next fsExists now s).2.1)

/-! ## Derived notions used to state the claims -/

/-- A row matching the publisher's scan predicate: `status_fb == "pending"`
and `"processed"` occurring in `path_local`. -/
def matchingRow (r : Row) : Bool :=
  r.status_fb == "pending" && strContains r.path_local "processed"

/-- A matching row whose referenced file exists on disk. -/
def eligibleRow (fsExists : String → Bool) (r : Row) : Bool :=
  matchingRow r && fsExists r.path_local

/-- The matching rows strictly before the first eligible row (in table
order) whose referenced file is missing: exactly the rows `cli_get_next`
queues for the batched `failed` transition. -/
def earlyRows (fsExists : String → Bool) (tbl : List Row) : List Row :=
  (tbl.takeWhile (fun r => !(eligibleRow fsExists r))).filter
    (fun r => matchingRow r && !(fsExists r.path_local))

/-- A sequence of `_append_to_inventory` calls, starting from persisted
state `s`. -/
def appendSeq (s : Option (List Row)) : List (List Row) → Option (List Row)
  | [] => s
  | b :: bs => appendSeq (some (append_to_inventory s b).1) bs

/-- One successful store operation, for the timestamp invariants. -/
inductive Op where
  | append (rows : List Row)
  | update (vid : String) (ups : List (String × FieldVal)) (now : Nat)
  | scan (fsExists : String → Bool) (now : Nat)

/-- The clock value an operation stamps into `updated_at` (irrelevant for
`append`, which never touches existing rows). -/
def opTime : Op → Nat
  | Op.append _ => 0
  | Op.update _ _ now => now
  | Op.scan _ now => now

/-- Side conditions on an operation's arguments: appended rows are
self-consistent, and an update mapping renames neither the key column nor
the creation timestamp. -/
def opOK : Op → Prop
  | Op.append rows => ∀ r ∈ rows, r.created_at ≤ r.updated_at
  | Op.update _ ups _ => ∀ kv ∈ ups, kv.1 ≠ "created_at" ∧ kv.1 ≠ "video_id"
  | Op.scan _ _ => True

/-- The operation's clock does not lie before any existing row's creation
time. -/
def timeOK (tbl : List Row) : Op → Prop
  | Op.append _ => True
  | Op.update _ _ now => ∀ r ∈ tbl, r.created_at ≤ now
  | Op.scan _ now => ∀ r ∈ tbl, r.created_at ≤ now

/-- Effect of one operation on the persisted state. -/
def applyOp (s : Option (List Row)) : Op → Option (List Row)
  | Op.append rows => some (append_to_inventory s rows).1
  | Op.update vid ups now =>
      s.map (fun tbl => (update_inventory_by_video_id tbl vid ups now).2.1)
  | Op.scan fsExists now => (cli_get_next fsExists now s).2.1

/-- Per-key preservation of `created_at` across one operation stamping
time `t`: every key present before is still found, with the same
`created_at`, and its row is either untouched or has `updated_at = t`. -/
def createdPreserved (tbl res : List Row) (t : Nat) : Prop :=
  ∀ k r, findRow tbl k = some r →
    ∃ q, findRow res k = some q ∧ q.created_at = r.created_at ∧
      (q = r ∨ q.updated_at = t)

/-- Conclusion of the reconciliation-scan claim, for a table `tbl` whose
keys are unique: the returned path is that of the first
pending+processed row whose file exists; the persisted table flips
exactly the early missing matching rows to `failed` with `updated_at :=
now`; and when no matching row has an existing file the scan returns
nothing and every matching row is queued as failed. -/
def getNextSpec (fsExists : String → Bool) (now : Nat) (tbl : List Row) : Prop :=
  (cli_get_next fsExists now (some tbl)).1 =
      (tbl.find? (eligibleRow fsExists)).map (fun r => r.path_local) ∧
  ((cli_get_next fsExists now (some tbl)).2.1).isSome = true ∧
  List.Forall₂ (fun a b =>
      (a ∈ earlyRows fsExists tbl →
        b = { a with status_fb := "failed", updated_at := now }) ∧
      (a ∉ earlyRows fsExists tbl → b = a))
    tbl (((cli_get_next fsExists now (some tbl)).2.1).getD []) ∧
  ((∀ r ∈ tbl, matchingRow r = true → fsExists r.path_local = false) →
      (cli_get_next fsExists now (some tbl)).1 = none ∧
      ∀ r ∈ tbl, matchingRow r = true → r ∈ earlyRows fsExists tbl)

/-- Conclusion of the `updateByKey` frame claim: on a table containing
the key, the call returns `true` and rewrites exactly the rows carrying
`vid` — such a row becomes the supplied updates applied on top of it with
`updated_at` forced to `now`; every other row is returned identical. -/
def updateFrameSpec (tbl : List Row) (vid : String)
    (ups : List (String × FieldVal)) (now : Nat) : Prop :=
  (update_inventory_by_video_id tbl vid ups now).1 = true ∧
  List.Forall₂ (fun a b =>
      (a.video_id ≠ vid → b = a) ∧
      (a.video_id = vid →
        b = applyUpdates vid ups now a ∧ b.updated_at = now))
    tbl (update_inventory_by_video_id tbl vid ups now).2.1

/-! ## Concrete fixtures for witnesses and counterexamples -/

/-- A `ready` row whose processed file will be missing on disk. -/
def rowV1 : Row :=
  { video_id := "v1", source_url := "https://example.com/v1", title := "V1",
    duration := 10, path_local := "videos/processed/v1.mp4",
    status_fb := "ready", created_at := 5, updated_at := 5 }

/-- A later duplicate of `rowV1`'s key with different timestamps. -/
def rowDup : Row :=
  { rowV1 with title := "dup", created_at := 999, updated_at := 999 }

/-- A pending row whose processed file is missing. -/
def rowM1 : Row :=
  { video_id := "m1", source_url := "https://example.com/m1", title := "M1",
    duration := 11, path_local := "videos/processed/m1.mp4",
    status_fb := "pending", created_at := 1, updated_at := 1 }

/-- A pending row whose processed file exists. -/
def rowE1 : Row :=
  { video_id := "e1", source_url := "https://example.com/e1", title := "E1",
    duration := 12, path_local := "videos/processed/e1.mp4",
    status_fb := "pending", created_at := 2, updated_at := 2 }

/-- A filesystem on which no referenced file exists. -/
def noFile : String → Bool := fun _ => false

/-- A filesystem on which only `rowE1`'s processed file exists. -/
def fsE1 : String → Bool := fun p => p == "videos/processed/e1.mp4"

/-! ## Helper lemmas: fields and per-row updates -/

theorem beqComm (a b : String) : (a == b) = (b == a) := by
  by_cases h : a = b
  · subst h; rfl
  · rw [beq_eq_false_iff_ne.mpr h, beq_eq_false_iff_ne.mpr (fun e => h e.symm)]

theorem setField_updated_at (r : Row) (t : Nat) :
    setField r "updated_at" (FieldVal.time t) = { r with updated_at := t } := rfl

theorem setField_created_at (r : Row) (k : String) (v : FieldVal)
    (h : k ≠ "created_at") : (setField r k v).created_at = r.created_at := by
  unfold setField
  split <;> simp_all

theorem setField_video_id (r : Row) (k : String) (v : FieldVal)
    (h : k ≠ "video_id") : (setField r k v).video_id = r.video_id := by
  unfold setField
  split <;> simp_all

theorem foldUpdates_created_at (ups : List (String × FieldVal)) :
    ∀ r : Row, (∀ kv ∈ ups, kv.1 ≠ "created_at") →
      (ups.foldl
        (fun acc kv =>
          if INVENTORY_COLUMNS.contains kv.1 then setField acc kv.1 kv.2
          else acc) r).created_at = r.created_at := by
  induction ups with
  | nil => intro r _; rfl
  | cons kv rest ih =>
      intro r h
      simp only [List.foldl_cons]
      by_cases hc : INVENTORY_COLUMNS.contains kv.1 = true
      · rw [if_pos hc, ih _ (fun x hx => h x (List.mem_cons_of_mem _ hx)),
          setField_created_at _ _ _ (h kv (List.mem_cons_self _ _))]
      · rw [if_neg hc]
        exact ih r (fun x hx => h x (List.mem_cons_of_mem _ hx))

theorem foldUpdates_video_id (ups : List (String × FieldVal)) :
    ∀ r : Row, (∀ kv ∈ ups, kv.1 ≠ "video_id") →
      (ups.foldl
        (fun acc kv =>
          if INVENTORY_COLUMNS.contains kv.1 then setField acc kv.1 kv.2
          else acc) r).video_id = r.video_id := by
  induction ups with
  | nil => intro r _; rfl
  | cons kv rest ih =>
      intro r h
      simp only [List.foldl_cons]
      by_cases hc : INVENTORY_COLUMNS.contains kv.1 = true
      · rw [if_pos hc, ih _ (fun x hx => h x (List.mem_cons_of_mem _ hx)),
          setField_video_id _ _ _ (h kv (List.mem_cons_self _ _))]
      · rw [if_neg hc]
        exact ih r (fun x hx => h x (List.mem_cons_of_mem _ hx))

theorem applyUpdates_of_ne (vid : String) (ups : List (String × FieldVal))
    (now : Nat) (r : Row) (h : r.video_id ≠ vid) :
    applyUpdates vid ups now r = r := by
  simp [applyUpdates, h]

theorem applyUpdates_updated_at (vid : String) (ups : List (String × FieldVal))
    (now : Nat) (r : Row) (h : r.video_id = vid) :
    (applyUpdates vid ups now r).updated_at = now := by
  simp [applyUpdates, h, setField_updated_at]

theorem applyUpdates_created_at (vid : String) (ups : List (String × FieldVal))
    (now : Nat) (r : Row) (h : ∀ kv ∈ ups, kv.1 ≠ "created_at") :
    (applyUpdates vid ups now r).created_at = r.created_at := by
  unfold applyUpdates
  by_cases hv : r.video_id = vid
  · simp only [hv, beq_self_eq_true, if_true, setField_updated_at]
    exact foldUpdates_created_at ups r h
  · simp [hv]

theorem applyUpdates_video_id (vid : String) (ups : List (String × FieldVal))
    (now : Nat) (r : Row) (h : ∀ kv ∈ ups, kv.1 ≠ "video_id") :
    (applyUpdates vid ups now r).video_id = r.video_id := by
  unfold applyUpdates
  by_cases hv : r.video_id = vid
  · rw [if_pos (by simp [hv] : (r.video_id == vid) = true), setField_updated_at]
    exact foldUpdates_video_id ups r h
  · simp [hv]

/-! ## Helper lemmas: `findRow` and deduplication -/

theorem findRow_cons (r : Row) (rs : List Row) (k : String) :
    findRow (r :: rs) k =
      if (r.video_id == k) = true then some r else findRow rs k := by
  by_cases h : (r.video_id == k) = true
  · rw [if_pos h]
    exact List.find?_cons_of_pos _ h
  · rw [if_neg h]
    exact List.find?_cons_of_neg _ (by simpa using h)

theorem findRow_map (f : Row → Row) (hf : ∀ r, (f r).video_id = r.video_id)
    (l : List Row) (k : String) :
    findRow (l.map f) k = (findRow l k).map f := by
  induction l with
  | nil => rfl
  | cons r rs ih =>
      rw [List.map_cons, findRow_cons, findRow_cons, hf r]
      by_cases h : (r.video_id == k) = true
      · rw [if_pos h, if_pos h]; rfl
      · rw [if_neg h, if_neg h, ih]

theorem findRow_append (l₁ l₂ : List Row) (k : String) (r : Row)
    (h : findRow l₁ k = some r) : findRow (l₁ ++ l₂) k = some r := by
  unfold findRow at h ⊢
  rw [List.find?_append, h]
  rfl

theorem findRow_keepFirstByKey (l : List Row) :
    ∀ (seen : List String) (k : String),
      findRow (keepFirstByKey seen l) k =
        if seen.contains k = true then none else findRow l k := by
  induction l with
  | nil =>
      intro seen k
      by_cases h : seen.contains k = true <;> simp [h, keepFirstByKey, findRow]
  | cons r rs ih =>
      intro seen k
      simp only [keepFirstByKey]
      by_cases h1 : seen.contains r.video_id = true
      · rw [if_pos h1, ih seen k]
        by_cases h2 : seen.contains k = true
        · rw [if_pos h2, if_pos h2]
        · have hne : (r.video_id == k) = false := by
            apply beq_eq_false_iff_ne.mpr
            intro e; rw [e] at h1; exact h2 h1
          rw [if_neg h2, if_neg h2, findRow_cons, hne]
          simp
      · rw [if_neg h1, findRow_cons]
        by_cases h3 : (r.video_id == k) = true
        · have hk : r.video_id = k := by simpa using h3
          have h2 : seen.contains k = false := by
            rw [← hk]
            exact Bool.eq_false_iff.mpr h1
          rw [if_pos h3, if_neg (by rw [h2]; exact Bool.false_ne_true),
            findRow_cons, if_pos h3]
        · rw [if_neg h3, ih (r.video_id :: seen) k]
          have hkr : (k == r.video_id) = false := by
            rw [beqComm]
            exact Bool.eq_false_iff.mpr h3
          have hcc : ((r.video_id :: seen).contains k) = seen.contains k := by
            rw [List.contains_cons, hkr, Bool.false_or]
          rw [hcc, findRow_cons, if_neg h3]

theorem keepFirstByKey_subset (l : List Row) :
    ∀ (seen : List String) (r : Row), r ∈ keepFirstByKey seen l → r ∈ l := by
  induction l with
  | nil => intro seen r h; simp [keepFirstByKey] at h
  | cons x xs ih =>
      intro seen r h
      simp only [keepFirstByKey] at h
      by_cases h1 : seen.contains x.video_id = true
      · rw [if_pos h1] at h
        exact List.mem_cons_of_mem _ (ih seen r h)
      · rw [if_neg h1] at h
        rcases List.mem_cons.mp h with h | h
        · exact h ▸ List.mem_cons_self _ _
        · exact List.mem_cons_of_mem _ (ih _ r h)

theorem keepFirstByKey_nodup (l : List Row) : ∀ seen : List String,
    ((keepFirstByKey seen l).map (fun r => r.video_id)).Nodup ∧
    ∀ v ∈ (keepFirstByKey seen l).map (fun r => r.video_id),
      seen.contains v = false := by
  induction l with
  | nil => intro seen; exact ⟨by simp [keepFirstByKey], by simp [keepFirstByKey]⟩
  | cons x xs ih =>
      intro seen
      simp only [keepFirstByKey]
      by_cases h1 : seen.contains x.video_id = true
      · rw [if_pos h1]; exact ih seen
      · rw [if_neg h1]
        obtain ⟨hnd, hcon⟩ := ih (x.video_id :: seen)
        constructor
        · simp only [List.map_cons, List.nodup_cons]
          refine ⟨fun hmem => ?_, hnd⟩
          have := hcon _ hmem
          simp at this
        · intro v hv
          simp only [List.map_cons, List.mem_cons] at hv
          rcases hv with rfl | hv
          · exact Bool.eq_false_iff.mpr h1
          · have := hcon v hv
            rw [List.contains_cons, Bool.or_eq_false_iff] at this
            exact this.2

/-! ## Helper lemmas: `ensure` / `append` / sequences of appends -/

theorem ensure_fst (s : Option (List Row)) :
    (ensure_inventory s).1 = s.getD [] := by
  cases s <;> rfl

theorem append_findRow (s : Option (List Row)) (rows : List Row)
    (k : String) (r : Row) (h : findRow (s.getD []) k = some r) :
    findRow (append_to_inventory s rows).1 k = some r := by
  unfold append_to_inventory
  by_cases he : rows.isEmpty = true
  · rw [if_pos he, ensure_fst]
    exact h
  · rw [if_neg he]
    have h0 : (([] : List String).contains k) = false := rfl
    rw [findRow_keepFirstByKey, h0]
    rw [if_neg Bool.false_ne_true, ensure_fst]
    exact findRow_append _ _ _ _ h

theorem append_nodup (s : Option (List Row)) (rows : List Row)
    (h : keysNodup (s.getD [])) :
    keysNodup (append_to_inventory s rows).1 := by
  unfold append_to_inventory
  by_cases he : rows.isEmpty = true
  · rw [if_pos he, ensure_fst]; exact h
  · rw [if_neg he]
    exact (keepFirstByKey_nodup _ []).1

theorem append_mem (s : Option (List Row)) (rows : List Row) (q : Row)
    (hq : q ∈ (append_to_inventory s rows).1) : q ∈ s.getD [] ++ rows := by
  unfold append_to_inventory at hq
  by_cases he : rows.isEmpty = true
  · rw [if_pos he, ensure_fst] at hq
    exact List.mem_append_left _ hq
  · rw [if_neg he] at hq
    have := keepFirstByKey_subset _ [] q hq
    rwa [ensure_fst] at this

theorem appendSeq_invariant (batches : List (List Row)) :
    ∀ (s : Option (List Row)) (k : String) (r : Row),
      keysNodup (s.getD []) → findRow (s.getD []) k = some r →
      keysNodup ((appendSeq s batches).getD []) ∧
      findRow ((appendSeq s batches).getD []) k = some r := by
  induction batches with
  | nil => intro s k r h1 h2; exact ⟨h1, h2⟩
  | cons b bs ih =>
      intro s k r h1 h2
      simp only [appendSeq]
      exact ih (some (append_to_inventory s b).1) k r
        (by simpa using append_nodup s b h1)
        (by simpa using append_findRow s b k r h2)

/-! ## Helper lemmas: the publishing scan -/

theorem markFailed_nil (now : Nat) (tbl : List Row) :
    markFailed [] now tbl = tbl := by
  unfold markFailed
  have : ∀ r : Row, (([] : List String).contains r.video_id) = false :=
    fun _ => rfl
  simp [this]

theorem scanRows_fst (fsExists : String → Bool) (l : List Row) :
    (scanRows fsExists l).1 =
      (l.find? (eligibleRow fsExists)).map (fun r => r.path_local) := by
  induction l with
  | nil => rfl
  | cons r rs ih =>
      cases h1 : r.status_fb == "pending" <;>
        cases h2 : strContains r.path_local "processed" <;>
          cases h3 : fsExists r.path_local <;>
            simp [scanRows, eligibleRow, matchingRow, h1, h2, h3, ih]

theorem scanRows_snd (fsExists : String → Bool) (l : List Row) :
    (scanRows fsExists l).2 =
      (earlyRows fsExists l).map (fun r => r.video_id) := by
  induction l with
  | nil => rfl
  | cons r rs ih =>
      cases h1 : r.status_fb == "pending" <;>
        cases h2 : strContains r.path_local "processed" <;>
          cases h3 : fsExists r.path_local <;>
            simp [scanRows, earlyRows, List.takeWhile_cons, List.filter_cons,
              eligibleRow, matchingRow, h1, h2, h3, ih]

theorem cli_get_next_some (fsExists : String → Bool) (now : Nat)
    (tbl : List Row) :
    cli_get_next fsExists now (some tbl) =
      ((scanRows fsExists tbl).1,
       some (markFailed (scanRows fsExists tbl).2 now tbl),
       if (scanRows fsExists tbl).2.isEmpty then [Event.acquire, Event.release]
       else [Event.acquire, Event.writeInventory, Event.release]) := by
  simp only [cli_get_next]
  by_cases h : (scanRows fsExists tbl).2.isEmpty = true
  · have hnil : (scanRows fsExists tbl).2 = [] := by
      rwa [List.isEmpty_iff] at h
    simp [h, hnil, markFailed_nil]
  · simp [h]

/-! ## Helper lemmas: update mappings with unknown keys -/

theorem foldl_skip_filter (p : String × FieldVal → Bool)
    (g : Row → String × FieldVal → Row) (l : List (String × FieldVal)) :
    ∀ r : Row,
      l.foldl (fun acc kv => if p kv then g acc kv else acc) r =
        (l.filter p).foldl (fun acc kv => if p kv then g acc kv else acc) r := by
  induction l with
  | nil => intro r; rfl
  | cons kv rest ih =>
      intro r
      by_cases h : p kv = true
      · simp [List.filter_cons, h, ih]
      · simp [List.filter_cons, h, ih]

theorem applyUpdates_filter (vid : String) (ups : List (String × FieldVal))
    (now : Nat) (r : Row) :
    applyUpdates vid ups now r =
      applyUpdates vid
        (ups.filter (fun kv => INVENTORY_COLUMNS.contains kv.1)) now r := by
  unfold applyUpdates
  rw [foldl_skip_filter (fun kv => INVENTORY_COLUMNS.contains kv.1)
    (fun acc kv => setField acc kv.1 kv.2) ups r]

theorem distinctStrings_iff (l : List String) :
    distinctStrings l = true ↔ l.Nodup := by
  induction l with
  | nil => simp [distinctStrings]
  | cons x xs ih =>
      constructor
      · intro h
        rw [distinctStrings, Bool.and_eq_true] at h
        obtain ⟨h1, h2⟩ := h
        rw [List.nodup_cons]
        refine ⟨fun hmem => ?_, ih.mp h2⟩
        have hc : xs.contains x = true := List.elem_iff.mpr hmem
        rw [hc] at h1
        simp at h1
      · intro h
        rw [List.nodup_cons] at h
        rw [distinctStrings, Bool.and_eq_true]
        refine ⟨?_, ih.mpr h.2⟩
        by_cases hc : xs.contains x = true
        · exact absurd (List.elem_iff.mp hc) h.1
        · rw [Bool.eq_false_iff.mpr hc]
          rfl

theorem exprAliases_distinct (ups : List (String × FieldVal))
    (hkeys : (ups.map (fun kv => kv.1)).Nodup)
    (hnu : ∀ kv ∈ ups, kv.1 ≠ "updated_at") :
    distinctStrings (exprAliases ups) = true := by
  rw [distinctStrings_iff]
  unfold exprAliases
  rw [List.nodup_append]
  refine ⟨?_, List.nodup_singleton _, ?_⟩
  · exact List.Nodup.sublist
      (List.Sublist.map _ (List.filter_sublist ups)) hkeys
  · intro a ha hb
    rw [List.mem_singleton] at hb
    obtain ⟨kv, hkvmem, hkva⟩ := List.mem_map.mp ha
    exact hnu kv (List.mem_filter.mp hkvmem).1 (by rw [hkva, hb])

theorem update_run_ok (tbl : List Row) (vid : String)
    (ups : List (String × FieldVal)) (now : Nat)
    (hkeys : (ups.map (fun kv => kv.1)).Nodup)
    (hnu : ∀ kv ∈ ups, kv.1 ≠ "updated_at") :
    update_by_video_idRun tbl vid ups now =
      Except.ok (update_inventory_by_video_id tbl vid ups now) := by
  unfold update_by_video_idRun
  by_cases hp : tbl.any (fun r => r.video_id == vid) = true
  · rw [if_pos hp, if_pos (exprAliases_distinct ups hkeys hnu)]
  · rw [if_neg hp]

theorem exprAliases_filter (ups : List (String × FieldVal)) :
    exprAliases (ups.filter (fun kv => INVENTORY_COLUMNS.contains kv.1)) =
      exprAliases ups := by
  unfold exprAliases
  rw [List.filter_filter,
    List.filter_congr
      (fun kv _ => by rw [Bool.and_self] :
        ∀ kv ∈ ups,
          (INVENTORY_COLUMNS.contains kv.1 && INVENTORY_COLUMNS.contains kv.1)
            = INVENTORY_COLUMNS.contains kv.1)]

theorem update_filter_eq (tbl : List Row) (vid : String)
    (ups : List (String × FieldVal)) (now : Nat) :
    update_inventory_by_video_id tbl vid ups now =
      update_inventory_by_video_id tbl vid
        (ups.filter (fun kv => INVENTORY_COLUMNS.contains kv.1)) now := by
  unfold update_inventory_by_video_id
  by_cases hp : tbl.any (fun r => r.video_id == vid) = true
  · rw [if_pos hp, if_pos hp,
      List.map_congr_left (fun a _ => applyUpdates_filter vid ups now a)]
  · rw [if_neg hp, if_neg hp]

theorem update_run_filter_eq (tbl : List Row) (vid : String)
    (ups : List (String × FieldVal)) (now : Nat) :
    update_by_video_idRun tbl vid ups now =
      update_by_video_idRun tbl vid
        (ups.filter (fun kv => INVENTORY_COLUMNS.contains kv.1)) now := by
  unfold update_by_video_idRun
  rw [exprAliases_filter]
  by_cases hp : tbl.any (fun r => r.video_id == vid) = true
  · rw [if_pos hp, if_pos hp]
    by_cases hd : distinctStrings (exprAliases ups) = true
    · rw [if_pos hd, if_pos hd, update_filter_eq]
    · rw [if_neg hd, if_neg hd]
  · rw [if_neg hp, if_neg hp, update_filter_eq]

theorem scanRows_no_pending (fsExists : String → Bool) (l : List Row)
    (h : ∀ r ∈ l, (r.status_fb == "pending") = false) :
    scanRows fsExists l = (none, []) := by
  induction l with
  | nil => rfl
  | cons r rs ih =>
      have h1 := h r (List.mem_cons_self _ _)
      simp only [scanRows, h1, Bool.false_eq_true, if_false]
      exact ih (fun x hx => h x (List.mem_cons_of_mem _ hx))

/-! ## Claim theorems -/

/-- Claim C1, counterexample: a table whose only row is
`status_fb = "ready"` with a processed path whose file is missing on
disk.  Contrary to the claim, `cli_get_next` does NOT transition the row
to `failed`: the row is left unchanged (still `"ready"`), though the call
does return no result. -/
theorem C1_counterexample_ready_row_skipped :
    (cli_get_next noFile 100 (some [rowV1])).1 = none ∧
    (cli_get_next noFile 100 (some [rowV1])).2.1 = some [rowV1] ∧
    rowV1.status_fb = "ready" ∧
    (cli_get_next noFile 100 (some [rowV1])).2.1 ≠
      some [{ rowV1 with status_fb := "failed", updated_at := 100 }] := by
  refine ⟨by decide, by decide, rfl, by decide⟩

/-- Claim C1, amended: the publishing "get next" operation considers
only rows whose `status_fb` is exactly `"pending"`; on a table with no
pending row (in particular one whose only matching-path row is
`"ready"` with a missing file) it returns no result and leaves the
persisted table completely unchanged, writing nothing. -/
theorem C1_amended_pending_only (fsExists : String → Bool) (now : Nat)
    (tbl : List Row) (h : ∀ r ∈ tbl, r.status_fb ≠ "pending") :
    cli_get_next fsExists now (some tbl) =
      (none, some tbl, [Event.acquire, Event.release]) := by
  have hs : scanRows fsExists tbl = (none, []) :=
    scanRows_no_pending fsExists tbl
      (fun r hr => beq_eq_false_iff_ne.mpr (h r hr))
  simp [cli_get_next, hs]

/-- Witness for C1's amended theorem at the Scenario-B table. -/
theorem C1_amended_pending_only_witness :
    (∀ r ∈ [rowV1], r.status_fb ≠ "pending") ∧
    cli_get_next noFile 100 (some [rowV1]) =
      (none, some [rowV1], [Event.acquire, Event.release]) :=
  ⟨by decide, C1_amended_pending_only noFile 100 [rowV1] (by decide)⟩

/-- Claim C2: across any sequence of append calls (starting from a store
whose table has unique keys), the resulting table still has at most one
row per `video_id`, and a key already present keeps its original full
row — `created_at` included — untouched. -/
theorem C2_append_unique_noop (s : Option (List Row))
    (batches : List (List Row)) (k : String) (r : Row)
    (hnd : keysNodup (s.getD [])) (h : findRow (s.getD []) k = some r) :
    keysNodup ((appendSeq s batches).getD []) ∧
    findRow ((appendSeq s batches).getD []) k = some r :=
  appendSeq_invariant batches s k r hnd h

/-- Witness for C2: appending a duplicate of key `"v1"` with different
timestamps leaves the original row (and its `created_at`) in place. -/
theorem C2_append_unique_noop_witness :
    keysNodup ((some [rowV1]).getD []) ∧
    findRow ((some [rowV1]).getD []) "v1" = some rowV1 ∧
    (keysNodup ((appendSeq (some [rowV1]) [[rowDup]]).getD []) ∧
     findRow ((appendSeq (some [rowV1]) [[rowDup]]).getD []) "v1" =
       some rowV1) :=
  ⟨by decide, by decide,
   C2_append_unique_noop (some [rowV1]) [[rowDup]] "v1" rowV1
     (by decide) (by decide)⟩

/-- Claim C3, counterexample: a mapping that itself carries the
`updated_at` column on a table containing the key.  The Python call
builds two expressions named `updated_at` in its single `with_columns`
call, which raises `DuplicateError` (re-raised by the handler) — the
call does not return true for this mapping, contrary to the claim's
universal quantification over every field-update mapping. -/
theorem C3_counterexample_updated_at_key :
    ([rowE1].any (fun r => r.video_id == "e1") = true) ∧
    update_by_video_idRun [rowE1] "e1" [("updated_at", FieldVal.time 123)] 50 =
      Except.error () :=
  ⟨by decide, rfl⟩

/-- Claim C3, amended: on a table containing the key, for every
field-update mapping (distinct keys, as a Python dict has) that does not
itself contain the `updated_at` column — such a mapping collides with
the automatic `updated_at` expression and raises `DuplicateError` — the
call succeeds: it returns true, applies the supplied per-column updates
(with `updated_at` forced to the current time regardless of the supplied
fields) to exactly the rows carrying that key, and returns every other
row unchanged. -/
theorem C3_amended_update_frame (tbl : List Row) (vid : String)
    (ups : List (String × FieldVal)) (now : Nat)
    (h : tbl.any (fun r => r.video_id == vid) = true)
    (hkeys : (ups.map (fun kv => kv.1)).Nodup)
    (hnu : ∀ kv ∈ ups, kv.1 ≠ "updated_at") :
    update_by_video_idRun tbl vid ups now =
      Except.ok (update_inventory_by_video_id tbl vid ups now) ∧
    updateFrameSpec tbl vid ups now := by
  refine ⟨update_run_ok tbl vid ups now hkeys hnu, ?_⟩
  unfold updateFrameSpec update_inventory_by_video_id
  rw [if_pos h]
  refine ⟨rfl, ?_⟩
  rw [List.forall₂_map_right_iff, List.forall₂_same]
  intro a _
  refine ⟨fun hne => applyUpdates_of_ne vid ups now a hne,
    fun heq => ⟨rfl, applyUpdates_updated_at vid ups now a heq⟩⟩

/-- Witness for C3's amended theorem: updating `status_fb` of row
`"e1"` in a two-row table. -/
theorem C3_amended_update_frame_witness :
    ([rowM1, rowE1].any (fun r => r.video_id == "e1") = true) ∧
    (([("status_fb", FieldVal.str "posted")].map (fun kv => kv.1)).Nodup) ∧
    (∀ kv ∈ [("status_fb", FieldVal.str "posted")], kv.1 ≠ "updated_at") ∧
    (update_by_video_idRun [rowM1, rowE1] "e1"
        [("status_fb", FieldVal.str "posted")] 50 =
      Except.ok (update_inventory_by_video_id [rowM1, rowE1] "e1"
        [("status_fb", FieldVal.str "posted")] 50) ∧
     updateFrameSpec [rowM1, rowE1] "e1"
       [("status_fb", FieldVal.str "posted")] 50) :=
  ⟨by decide, by decide, by decide,
   C3_amended_update_frame [rowM1, rowE1] "e1"
     [("status_fb", FieldVal.str "posted")] 50
     (by decide) (by decide) (by decide)⟩

/-- Claim C4: on a table containing no row with the given key,
`updateByKey` returns false, raises nothing, and the persisted table
(and event trace: no write) is unchanged. -/
theorem C4_update_missing_false_unchanged (tbl : List Row) (vid : String)
    (ups : List (String × FieldVal)) (now : Nat)
    (h : tbl.any (fun r => r.video_id == vid) = false) :
    update_inventory_by_video_id tbl vid ups now =
      (false, tbl, [Event.acquire, Event.release]) := by
  unfold update_inventory_by_video_id
  rw [if_neg (by rw [h]; exact Bool.false_ne_true)]

/-- Witness for C4 at a missing key. -/
theorem C4_update_missing_false_unchanged_witness :
    ([rowV1].any (fun r => r.video_id == "missing-id") = false) ∧
    update_inventory_by_video_id [rowV1] "missing-id"
        [("status_fb", FieldVal.str "failed")] 50 =
      (false, [rowV1], [Event.acquire, Event.release]) :=
  ⟨by decide,
   C4_update_missing_false_unchanged [rowV1] "missing-id"
     [("status_fb", FieldVal.str "failed")] 50 (by decide)⟩

/-- Claim C5: the reconciliation scan, on a unique-key table, returns the
path of the first pending+processed row whose file exists; in the same
lock-held pass it flips exactly the matching rows earlier in table order
whose file is missing to `failed` with `updated_at` refreshed; when no
matching row has an existing file it returns nothing and every matching
row is queued as failed. -/
theorem C5_scan_reconcile (fsExists : String → Bool) (now : Nat)
    (tbl : List Row) (hnd : keysNodup tbl) :
    getNextSpec fsExists now tbl := by
  unfold getNextSpec
  rw [cli_get_next_some]
  have hall_early : (∀ r ∈ tbl, matchingRow r = true → fsExists r.path_local = false) →
      ∀ x ∈ tbl, (!(eligibleRow fsExists x)) = true := by
    intro hall x hx
    cases hmx : matchingRow x with
    | false => simp [eligibleRow, hmx]
    | true => simp [eligibleRow, hmx, hall x hx hmx]
  refine ⟨scanRows_fst fsExists tbl, rfl, ?_, ?_⟩
  · show List.Forall₂ _ tbl (markFailed (scanRows fsExists tbl).2 now tbl)
    unfold markFailed
    rw [List.forall₂_map_right_iff, List.forall₂_same]
    intro a ha
    rw [scanRows_snd]
    constructor
    · intro hmem
      rw [if_pos ?hc]
      case hc =>
        exact List.elem_iff.mpr
          (List.mem_map_of_mem (fun r => r.video_id) hmem)
    · intro hnot
      rw [if_neg ?hnc]
      case hnc =>
        intro hc
        obtain ⟨b, hb, hba⟩ := List.mem_map.mp (List.elem_iff.mp hc)
        have hbt : b ∈ tbl := by
          have h1 := (List.mem_filter.mp hb).1
          exact (List.takeWhile_sublist _).subset h1
        have hba2 : b = a :=
          List.inj_on_of_nodup_map hnd hbt ha hba
        exact hnot (hba2 ▸ hb)
  · intro hall
    constructor
    · rw [scanRows_fst]
      have hfind : tbl.find? (eligibleRow fsExists) = none := by
        rw [List.find?_eq_none]
        intro x hx
        have := hall_early hall x hx
        simp only [Bool.not_eq_true'] at this
        simp [this]
      rw [hfind]
      rfl
    · intro r hr hm
      unfold earlyRows
      rw [List.mem_filter]
      refine ⟨?_, ?_⟩
      · have hself : tbl.takeWhile (fun r => !(eligibleRow fsExists r)) = tbl := by
          rw [List.takeWhile_eq_self_iff]
          exact hall_early hall
        rw [hself]
        exact hr
      · simp [hm, hall r hr hm]

/-- Witness for C5 on a two-row table where the first matching row's file
is missing and the second's exists. -/
theorem C5_scan_reconcile_witness :
    keysNodup [rowM1, rowE1] ∧ getNextSpec fsE1 77 [rowM1, rowE1] :=
  ⟨by decide, C5_scan_reconcile fsE1 77 [rowM1, rowE1] (by decide)⟩

/-- Claim C6, counterexample: the read path's lazy creation of a missing
inventory file (`read_inventory`) writes the inventory with no lock held
— its trace is a bare write, not lock-disciplined. -/
theorem C6_counterexample_unlocked_writes :
    (read_inventory none).2.1 = some [] ∧
    (read_inventory none).2.2 = [Event.writeInventory] ∧
    writesLocked (read_inventory none).2.2 0 = false :=
  ⟨rfl, rfl, rfl⟩

/-- Claim C6, amended: every inventory write the program actually
performs happens inside the scoped lock acquisition — the create branch
of `ensure`, `append`, `updateByKey`, and the publishing scan's batched
failure write are all lock-disciplined — with the single exception of
`read_inventory`'s lazy creation of a missing file.  The ingestion
collaborator's failure-status update performs no write at all: it always
raises (`LazyFrame` has no `write_parquet`) after the lazy read's
locked `ensure`, so it contributes no unlocked write. -/
theorem C6_amended_store_ops_locked (s s2 s3 s4 : Option (List Row))
    (rows : List Row) (tbl : List Row) (vid v st : String)
    (ups : List (String × FieldVal)) (now : Nat)
    (fsExists : String → Bool) :
    writesLocked (ensure_inventory s).2 0 = true ∧
    writesLocked (append_to_inventory s2 rows).2 0 = true ∧
    writesLocked (update_inventory_by_video_id tbl vid ups now).2.2 0 = true ∧
    writesLocked (cli_get_next fsExists now s3).2.2 0 = true ∧
    ((update_inventory_status v st s4).1 = Except.error () ∧
     (update_inventory_status v st s4).2 = (ensure_inventory s4).2 ∧
     writesLocked (update_inventory_status v st s4).2 0 = true) := by
  refine ⟨?_, ?_, ?_, ?_, rfl, rfl, by cases s4 <;> rfl⟩
  · cases s <;> rfl
  · cases s2 <;> by_cases he : rows.isEmpty = true <;>
      simp [append_to_inventory, ensure_inventory, he, writesLocked]
  · by_cases h : tbl.any (fun r => r.video_id == vid) = true <;>
      simp [update_inventory_by_video_id, h, writesLocked]
  · cases s3 with
    | none => rfl
    | some tbl3 =>
        rw [cli_get_next_some]
        by_cases h : (scanRows fsExists tbl3).2.isEmpty = true <;>
          simp [h, writesLocked]

/-- Claim C7, counterexample: an I/O or lock error raised inside the
publishing scan is swallowed by its exception handler, which returns a
normal empty result instead of propagating the error. -/
theorem C7_counterexample_scan_swallows :
    (cli_get_nextExc true noFile 0 (some [rowM1])).1 = Except.ok none ∧
    (cli_get_nextExc true noFile 0 (some [rowM1])).1 ≠ Except.error () :=
  ⟨rfl, by simp [cli_get_nextExc]⟩

/-- Claim C7, amended: the store operations (`ensure`, `append`,
`updateByKey`) re-raise any storage I/O or lock-acquisition error to the
caller, but the publishing scan catches every such error and converts it
into a normal empty result. -/
theorem C7_amended_store_raises_scan_swallows (s s2 s3 : Option (List Row))
    (rows : List Row) (tbl : List Row) (vid : String)
    (ups : List (String × FieldVal)) (now : Nat)
    (fsExists : String → Bool) :
    ensure_inventoryExc true s = Except.error () ∧
    append_to_inventoryExc true s2 rows = Except.error () ∧
    update_by_video_idExc true tbl vid ups now = Except.error () ∧
    (cli_get_nextExc true fsExists now s3).1 = Except.ok none :=
  ⟨rfl, rfl, rfl, rfl⟩

/-- Claim C8, counterexample: a single successful `updateByKey` call
whose mapping contains the `created_at` column mutates `created_at`
(999 in place of 5) and leaves the row with `updated_at < created_at`. -/
theorem C8_counterexample_created_at_mutated :
    (update_inventory_by_video_id [rowV1] "v1"
        [("created_at", FieldVal.time 999)] 50).2.1 =
      [{ rowV1 with created_at := 999, updated_at := 50 }] ∧
    rowV1.created_at = 5 ∧
    ¬ ({ rowV1 with created_at := 999, updated_at := 50 } : Row).created_at ≤
        ({ rowV1 with created_at := 999, updated_at := 50 } : Row).updated_at :=
  ⟨by decide, rfl, by decide⟩

/-- Claim C10: when the inventory file does not exist, the publishing
"get next" returns an empty result without creating the file or writing
anything, while the full read operation lazily creates an empty table in
that situation. -/
theorem C10_get_next_no_create (fsExists : String → Bool) (now : Nat) :
    cli_get_next fsExists now none =
      (none, none, [Event.acquire, Event.release]) ∧
    (read_inventory none).1 = [] ∧
    (read_inventory none).2.1 = some [] ∧
    (read_inventory none).2.2 = [Event.writeInventory] :=
  ⟨rfl, rfl, rfl, rfl⟩

/-- Claim C9, counterexample: a mapping carrying the unknown key
`"bogus_key"` together with the `updated_at` column, on a table
containing the key.  The unknown key is indeed dropped, but the call
raises `DuplicateError` (two `updated_at` expressions in one
`with_columns`) rather than returning true — so "no error is raised …
the call still returns true" fails for this mapping. -/
theorem C9_counterexample_unknown_plus_updated_at :
    ([rowE1].any (fun r => r.video_id == "e1") = true) ∧
    (INVENTORY_COLUMNS.contains "bogus_key" = false) ∧
    update_by_video_idRun [rowE1] "e1"
        [("bogus_key", FieldVal.str "x"), ("updated_at", FieldVal.time 1)]
        50 =
      Except.error () :=
  ⟨by decide, by decide, rfl⟩

/-- Claim C9, amended: keys that are not inventory columns are silently
ignored — the full call (error paths included) behaves exactly as with
those keys filtered away, so they never add a column or cause an error
of their own; and provided the mapping (with distinct keys, as a Python
dict has) does not carry the `updated_at` column — which raises
`DuplicateError` regardless of unknown keys — the call on a present key
raises nothing, still applies the remaining supplied fields, still
refreshes `updated_at`, and still returns true. -/
theorem C9_amended_unknown_keys_ignored (tbl : List Row) (vid : String)
    (ups : List (String × FieldVal)) (now : Nat)
    (h : tbl.any (fun r => r.video_id == vid) = true)
    (hkeys : (ups.map (fun kv => kv.1)).Nodup)
    (hnu : ∀ kv ∈ ups, kv.1 ≠ "updated_at") :
    update_by_video_idRun tbl vid ups now =
      update_by_video_idRun tbl vid
        (ups.filter (fun kv => INVENTORY_COLUMNS.contains kv.1)) now ∧
    update_by_video_idRun tbl vid ups now =
      Except.ok (update_inventory_by_video_id tbl vid ups now) ∧
    (update_inventory_by_video_id tbl vid ups now).1 = true ∧
    List.Forall₂ (fun a b => a.video_id = vid → b.updated_at = now)
      tbl (update_inventory_by_video_id tbl vid ups now).2.1 := by
  refine ⟨update_run_filter_eq tbl vid ups now,
    update_run_ok tbl vid ups now hkeys hnu, ?_, ?_⟩
  · unfold update_inventory_by_video_id
    rw [if_pos h]
  · unfold update_inventory_by_video_id
    rw [if_pos h]
    show List.Forall₂ _ tbl (tbl.map (applyUpdates vid ups now))
    rw [List.forall₂_map_right_iff, List.forall₂_same]
    intro a _ heq
    exact applyUpdates_updated_at vid ups now a heq

/-- Witness for C9's amended theorem with a mapping containing the
unknown key `"bogus_key"` alongside a real column. -/
theorem C9_amended_unknown_keys_ignored_witness :
    ([rowE1].any (fun r => r.video_id == "e1") = true) ∧
    (([("bogus_key", FieldVal.str "x"),
       ("status_fb", FieldVal.str "posted")].map (fun kv => kv.1)).Nodup) ∧
    (∀ kv ∈ [("bogus_key", FieldVal.str "x"),
             ("status_fb", FieldVal.str "posted")], kv.1 ≠ "updated_at") ∧
    (update_by_video_idRun [rowE1] "e1"
        [("bogus_key", FieldVal.str "x"),
         ("status_fb", FieldVal.str "posted")] 60 =
      update_by_video_idRun [rowE1] "e1"
        ([("bogus_key", FieldVal.str "x"),
          ("status_fb", FieldVal.str "posted")].filter
          (fun kv => INVENTORY_COLUMNS.contains kv.1)) 60 ∧
     update_by_video_idRun [rowE1] "e1"
        [("bogus_key", FieldVal.str "x"),
         ("status_fb", FieldVal.str "posted")] 60 =
      Except.ok (update_inventory_by_video_id [rowE1] "e1"
        [("bogus_key", FieldVal.str "x"),
         ("status_fb", FieldVal.str "posted")] 60) ∧
     (update_inventory_by_video_id [rowE1] "e1"
        [("bogus_key", FieldVal.str "x"),
         ("status_fb", FieldVal.str "posted")] 60).1 = true ∧
     List.Forall₂ (fun a b => a.video_id = "e1" → b.updated_at = 60)
       [rowE1]
       (update_inventory_by_video_id [rowE1] "e1"
         [("bogus_key", FieldVal.str "x"),
          ("status_fb", FieldVal.str "posted")] 60).2.1) :=
  ⟨by decide, by decide, by decide,
   C9_amended_unknown_keys_ignored [rowE1] "e1"
     [("bogus_key", FieldVal.str "x"), ("status_fb", FieldVal.str "posted")]
     60 (by decide) (by decide) (by decide)⟩

/-- Claim C8, amended: after any single successful operation (append,
updateByKey, or the reconciliation scan) whose update mapping touches
neither `created_at` nor `video_id`, run at a clock value not before any
row's creation time, every pre-existing key keeps its `created_at`
unchanged and its row is either untouched or carries `updated_at`
refreshed to the operation's time; moreover every row of the result
satisfies `created_at ≤ updated_at`.  Applied inductively, this covers
every sequence of such operations. -/
theorem C8_amended_timestamp_invariants (tbl : List Row) (op : Op)
    (hInv : ∀ r ∈ tbl, r.created_at ≤ r.updated_at)
    (hOK : opOK op) (hT : timeOK tbl op) :
    ∃ res, applyOp (some tbl) op = some res ∧
      createdPreserved tbl res (opTime op) ∧
      ∀ q ∈ res, q.created_at ≤ q.updated_at := by
  cases op with
  | append rows =>
      refine ⟨(append_to_inventory (some tbl) rows).1, rfl, ?_, ?_⟩
      · intro k r h
        exact ⟨r, append_findRow (some tbl) rows k r h, rfl, Or.inl rfl⟩
      · intro q hq
        rcases List.mem_append.mp (append_mem (some tbl) rows q hq) with hh | hh
        · exact hInv q hh
        · exact hOK q hh
  | update vid ups now =>
      have hc : ∀ kv ∈ ups, kv.1 ≠ "created_at" := fun kv hkv => (hOK kv hkv).1
      have hv : ∀ kv ∈ ups, kv.1 ≠ "video_id" := fun kv hkv => (hOK kv hkv).2
      refine ⟨(update_inventory_by_video_id tbl vid ups now).2.1, rfl, ?_, ?_⟩
      · unfold createdPreserved update_inventory_by_video_id
        by_cases hf : tbl.any (fun r => r.video_id == vid) = true
        · rw [if_pos hf]
          intro k r h
          refine ⟨applyUpdates vid ups now r, ?_,
            applyUpdates_created_at vid ups now r hc, ?_⟩
          · show findRow (tbl.map (applyUpdates vid ups now)) k = _
            rw [findRow_map _ (fun x => applyUpdates_video_id vid ups now x hv),
              h]
            rfl
          · by_cases hveq : r.video_id = vid
            · exact Or.inr (applyUpdates_updated_at vid ups now r hveq)
            · exact Or.inl (applyUpdates_of_ne vid ups now r hveq)
        · rw [if_neg hf]
          intro k r h
          exact ⟨r, h, rfl, Or.inl rfl⟩
      · unfold update_inventory_by_video_id
        by_cases hf : tbl.any (fun r => r.video_id == vid) = true
        · rw [if_pos hf]
          intro q hq
          obtain ⟨a, ha, rfl⟩ :=
            List.mem_map.mp (show q ∈ tbl.map (applyUpdates vid ups now) from hq)
          by_cases hveq : a.video_id = vid
          · rw [applyUpdates_updated_at vid ups now a hveq,
              applyUpdates_created_at vid ups now a hc]
            exact hT a ha
          · rw [applyUpdates_of_ne vid ups now a hveq]
            exact hInv a ha
        · rw [if_neg hf]
          exact hInv
  | scan fsExists now =>
      have hfv : ∀ r : Row,
          ((fun x : Row =>
              if (scanRows fsExists tbl).2.contains x.video_id then
                { x with status_fb := "failed", updated_at := now }
              else x) r).video_id = r.video_id := by
        intro r
        beta_reduce
        by_cases hcr : (scanRows fsExists tbl).2.contains r.video_id = true
        · rw [if_pos hcr]
        · rw [if_neg hcr]
      refine ⟨markFailed (scanRows fsExists tbl).2 now tbl, ?_, ?_, ?_⟩
      · show (cli_get_next fsExists now (some tbl)).2.1 = _
        rw [cli_get_next_some]
      · have hmap : ∀ k, findRow (markFailed (scanRows fsExists tbl).2 now tbl) k
            = (findRow tbl k).map (fun x : Row =>
                if (scanRows fsExists tbl).2.contains x.video_id then
                  { x with status_fb := "failed", updated_at := now }
                else x) := by
          intro k
          unfold markFailed
          exact findRow_map _ hfv tbl k
        intro k r h
        by_cases hcr : (scanRows fsExists tbl).2.contains r.video_id = true
        · refine ⟨{ r with status_fb := "failed", updated_at := now }, ?_, rfl,
            Or.inr rfl⟩
          rw [hmap, h, Option.map_some', if_pos hcr]
        · refine ⟨r, ?_, rfl, Or.inl rfl⟩
          rw [hmap, h, Option.map_some', if_neg hcr]
      · intro q hq
        unfold markFailed at hq
        obtain ⟨a, ha, rfl⟩ := List.mem_map.mp hq
        by_cases hcr : (scanRows fsExists tbl).2.contains a.video_id = true
        · rw [if_pos hcr]
          exact hT a ha
        · rw [if_neg hcr]
          exact hInv a ha

/-- Witness for C8's amended theorem: marking row `"e1"` posted at time
50 on a two-row table. -/
theorem C8_amended_timestamp_invariants_witness :
    (∀ r ∈ [rowM1, rowE1], r.created_at ≤ r.updated_at) ∧
    opOK (Op.update "e1" [("status_fb", FieldVal.str "posted")] 50) ∧
    timeOK [rowM1, rowE1] (Op.update "e1" [("status_fb", FieldVal.str "posted")] 50) ∧
    (∃ res,
      applyOp (some [rowM1, rowE1])
          (Op.update "e1" [("status_fb", FieldVal.str "posted")] 50) =
        some res ∧
      createdPreserved [rowM1, rowE1] res
        (opTime (Op.update "e1" [("status_fb", FieldVal.str "posted")] 50)) ∧
      ∀ q ∈ res, q.created_at ≤ q.updated_at) :=
  ⟨by decide,
   (by decide : ∀ kv ∈ [("status_fb", FieldVal.str "posted")],
      kv.1 ≠ "created_at" ∧ kv.1 ≠ "video_id"),
   (by decide : ∀ r ∈ [rowM1, rowE1], r.created_at ≤ 50),
   C8_amended_timestamp_invariants [rowM1, rowE1]
     (Op.update "e1" [("status_fb", FieldVal.str "posted")] 50)
     (by decide)
     (by decide : ∀ kv ∈ [("status_fb", FieldVal.str "posted")],
        kv.1 ≠ "created_at" ∧ kv.1 ≠ "video_id")
     (by decide : ∀ r ∈ [rowM1, rowE1], r.created_at ≤ 50)⟩
